import Mathlib

/-!
# Verification of the ckeditor5-engine model layer

Shallow embedding of the repository's model data structures and operations:
`Range` (src/src/model/range.js), `ReinsertOperation` (same file),
`ChangeOperation` (src/unnamed/part_001) and `LiveSelection`
(src/unnamed/part_000), together with the `Position` primitives they build on.

`position.js`, `selection.js`, `document.js`, `liverange.js` and
`removeoperation.js` are not part of the sources at hand; definitions derived
from them are explicitly marked `Modelled from the spec:` and follow the
specification's description of those modules (lexicographic path comparison,
insertion/deletion/move position transformations, touching positions,
default range, graveyard root).
-/

set_option autoImplicit false

/-- A model position: a root identifier plus a path of child offsets.
Modelled from the spec: `position.js` is absent from the sources;
the spec defines a Position as `{ root, path }` with comparisons given by
lexicographic-with-common-prefix path comparison. -/
structure Pos where
  root : Nat
  path : List Nat
  deriving DecidableEq, Repr

/-- Strict lexicographic order on paths; a proper prefix sorts before its
extensions (`compareArrays` returning `prefix` means "before"). -/
def pathLt : List Nat → List Nat → Bool
  | [], [] => false
  | [], _ :: _ => true
  | _ :: _, [] => false
  | a :: as, b :: bs => if a < b then true else if b < a then false else pathLt as bs

/-- Non-strict path order. -/
def pathLe (a b : List Nat) : Bool :=
  a = b || pathLt a b

/-- `Position#isEqual`: same root and same path. -/
def Pos.isEqual (p q : Pos) : Bool :=
  p = q

/-- `Position#isBefore`: same root and strictly smaller path. -/
def Pos.isBefore (p q : Pos) : Bool :=
  p.root = q.root && pathLt p.path q.path

/-- `Position#isAfter`: same root and strictly larger path. -/
def Pos.isAfter (p q : Pos) : Bool :=
  p.root = q.root && pathLt q.path p.path

/-- `Position#offset`: the last step of the path. -/
def Pos.offset (p : Pos) : Nat :=
  p.path.getLastD 0

/-- `Position#getParentPath`: the path without its last step. -/
def Pos.getParentPath (p : Pos) : List Nat :=
  p.path.dropLast

/-- Replace the last step of the path (the JS `position.offset = n` setter). -/
def Pos.setOffset (p : Pos) (n : Nat) : Pos :=
  ⟨p.root, p.path.dropLast ++ [n]⟩

/-- `Position.createFromPosition`: a fresh position carrying the same root and
path values. -/
def Pos.createFromPosition (p : Pos) : Pos :=
  ⟨p.root, p.path⟩

/-- `Position#getShiftedBy`: last path segment incremented by `shift`. -/
def Pos.getShiftedBy (p : Pos) (shift : Nat) : Pos :=
  p.setOffset (p.offset + shift)

/-- A model range: an ordered pair of positions.  The JS constructor stores
fresh `Position` copies of the boundaries (`range.js` lines 26-42); `endPos`
embeds the JS field `end`, which is a reserved word in Lean. -/
structure Range where
  start : Pos
  endPos : Pos
  deriving DecidableEq, Repr

/-- The `Range` constructor: `new Range( start, end )`, with the `end`
argument optional; when omitted the range is collapsed at `start`.  Boundary
positions are copied via `Position.createFromPosition`. -/
def Range.make (start : Pos) (endPos : Option Pos) : Range :=
  { start := start.createFromPosition
    endPos := match endPos with
      | some e => e.createFromPosition
      | none => start.createFromPosition }

/-- `Range#isCollapsed`: start and end positions are equal. -/
def Range.isCollapsed (r : Range) : Bool :=
  r.start.isEqual r.endPos

/-- `Range#containsPosition`: strictly inside the range. -/
def Range.containsPosition (r : Range) (position : Pos) : Bool :=
  position.isAfter r.start && position.isBefore r.endPos

/-- `Range#containsRange`: both boundaries strictly inside this range. -/
def Range.containsRange (r otherRange : Range) : Bool :=
  r.containsPosition otherRange.start && r.containsPosition otherRange.endPos

/-- `Range#isEqual`: boundary-wise equality. -/
def Range.isEqual (r otherRange : Range) : Bool :=
  r.start.isEqual otherRange.start && r.endPos.isEqual otherRange.endPos

/-- `Range#isIntersecting`: `start < other.end && end > other.start`. -/
def Range.isIntersecting (r otherRange : Range) : Bool :=
  r.start.isBefore otherRange.endPos && r.endPos.isAfter otherRange.start

/-- `Range.createFromRange`: a fresh range with the same boundaries. -/
def Range.createFromRange (range : Range) : Range :=
  Range.make range.start (some range.endPos)

/-- `Range#getDifference`: the part(s) of this range that are not part of the
given range (zero, one or two ranges). -/
def Range.getDifference (r otherRange : Range) : List Range :=
  if r.isIntersecting otherRange then
    (if r.containsPosition otherRange.start then
      [Range.make r.start (some otherRange.start)] else []) ++
    (if r.containsPosition otherRange.endPos then
      [Range.make otherRange.endPos (some r.endPos)] else [])
  else
    [Range.createFromRange r]

/-- `Range#getIntersection`: the common part of both ranges, or `none` when
they do not intersect. -/
def Range.getIntersection (r otherRange : Range) : Option Range :=
  if r.isIntersecting otherRange then
    let commonRangeStart := if r.containsPosition otherRange.start then
      otherRange.start else r.start
    let commonRangeEnd := if r.containsPosition otherRange.endPos then
      otherRange.endPos else r.endPos
    some (Range.make commonRangeStart (some commonRangeEnd))
  else
    none

theorem pathLt_irrefl (l : List Nat) : pathLt l l = false := by
  induction l with
  | nil => rfl
  | cons a as ih => simp [pathLt, ih]

theorem createFromPosition_eq (p : Pos) : p.createFromPosition = p := rfl

/-- C1 counterexample: for the collapsed range at position `[0]`,
`R.getDifference(R)` is nonempty (it is `[R]`) and `R.getIntersection(R)` is
`null`, not `R`. -/
theorem collapsed_range_difference_intersection_counterexample :
    let r := Range.make ⟨0, [0]⟩ none
    ¬ (r.getDifference r = [] ∧ r.getIntersection r = some r) := by
  decide

/-- C1 (amended): for every range whose start is strictly before its end,
`R.getDifference(R)` is empty and `R.getIntersection(R)` equals `R`; for a
collapsed range `R` the code instead returns `[R]` and `null`. -/
theorem range_difference_intersection_self (r : Range)
    (h : r.start.isBefore r.endPos = true) :
    r.getDifference r = [] ∧ r.getIntersection r = some r := by
  have hroot : r.start.root = r.endPos.root := by
    simp [Pos.isBefore] at h
    exact h.1
  have hlt : pathLt r.start.path r.endPos.path = true := by
    simp [Pos.isBefore] at h
    exact h.2
  have hinter : r.isIntersecting r = true := by
    simp [Range.isIntersecting, Pos.isBefore, Pos.isAfter, hroot, hlt]
  have hcs : r.containsPosition r.start = false := by
    simp [Range.containsPosition, Pos.isAfter, pathLt_irrefl]
  have hce : r.containsPosition r.endPos = false := by
    simp [Range.containsPosition, Pos.isBefore, pathLt_irrefl]
  constructor
  · simp [Range.getDifference, hinter, hcs, hce]
  · simp [Range.getIntersection, hinter, hcs, hce, Range.make,
      createFromPosition_eq]

/-- Witness for C1's amended theorem at the concrete range `[0]..[2]`. -/
theorem range_difference_intersection_self_witness :
    let r := Range.make ⟨0, [0]⟩ (some ⟨0, [2]⟩)
    r.getDifference r = [] ∧ r.getIntersection r = some r :=
  range_difference_intersection_self (Range.make ⟨0, [0]⟩ (some ⟨0, [2]⟩))
    (by decide)

/-- Modelled from the spec: `Position#_getTransformedByInsertion` from the
absent `position.js` — recompute where this position points after `howMany`
nodes are inserted at `insertPosition`; a position exactly at the insertion
point moves forward only when `insertBefore` is set. -/
def Pos.transformedByInsertion (p insertPosition : Pos) (howMany : Nat)
    (insertBefore : Bool) : Pos :=
  if p.root ≠ insertPosition.root then
    p.createFromPosition
  else if insertPosition.getParentPath = p.getParentPath then
    if insertPosition.offset < p.offset ∨
        (insertPosition.offset = p.offset ∧ insertBefore) then
      p.setOffset (p.offset + howMany)
    else
      p.createFromPosition
  else if insertPosition.getParentPath <+: p.getParentPath ∧
      insertPosition.getParentPath ≠ p.getParentPath then
    let i := insertPosition.path.length - 1
    if insertPosition.offset ≤ p.path.getD i 0 then
      ⟨p.root, p.path.set i (p.path.getD i 0 + howMany)⟩
    else
      p.createFromPosition
  else
    p.createFromPosition

/-- Modelled from the spec: `Position#_getTransformedByDeletion` from the
absent `position.js` — recompute where this position points after `howMany`
nodes are removed at `deletePosition`; a position inside the deleted span has
no image (`null`). -/
def Pos.transformedByDeletion (p deletePosition : Pos) (howMany : Nat) :
    Option Pos :=
  if p.root ≠ deletePosition.root then
    some p.createFromPosition
  else if deletePosition.getParentPath = p.getParentPath then
    if deletePosition.offset < p.offset then
      if p.offset < deletePosition.offset + howMany then
        none
      else
        some (p.setOffset (p.offset - howMany))
    else
      some p.createFromPosition
  else if deletePosition.getParentPath <+: p.getParentPath ∧
      deletePosition.getParentPath ≠ p.getParentPath then
    let i := deletePosition.path.length - 1
    if deletePosition.offset ≤ p.path.getD i 0 then
      if p.path.getD i 0 < deletePosition.offset + howMany then
        none
      else
        some ⟨p.root, p.path.set i (p.path.getD i 0 - howMany)⟩
    else
      some p.createFromPosition
  else
    some p.createFromPosition

/-- Modelled from the spec: `Position#_getCombined` from the absent
`position.js` — the image of a position inside a moved span: the target
position plus this position's offset relative to the move source, keeping the
deeper path steps. -/
def Pos.getCombined (p source target : Pos) : Pos :=
  let i := source.path.length - 1
  ⟨target.root,
    target.path.dropLast ++ [target.offset + p.path.getD i 0 - source.offset]
      ++ p.path.drop (i + 1)⟩

/-- Modelled from the spec: `Position#_getTransformedByMove` from the absent
`position.js` — deletion at the source followed by insertion at the
(deletion-adjusted) target; positions inside the moved span (or sticking to
it) relocate with the span via `getCombined`. -/
def Pos.transformedByMove (p sourcePosition targetPosition : Pos)
    (howMany : Nat) (insertBefore sticky : Bool) : Pos :=
  let target := (targetPosition.transformedByDeletion sourcePosition
    howMany).getD targetPosition
  match p.transformedByDeletion sourcePosition howMany with
  | none => p.getCombined sourcePosition target
  | some transformed =>
    if sticky ∧ transformed.isEqual sourcePosition then
      p.getCombined sourcePosition target
    else
      transformed.transformedByInsertion target howMany insertBefore

/-- `Range#_getTransformedByInsertion` (`range.js` lines 502-526). -/
def Range.getTransformedByInsertion (r : Range) (insertPosition : Pos)
    (howMany : Nat) (spread isSticky : Bool) : List Range :=
  if spread ∧ r.containsPosition insertPosition then
    [ Range.make r.start (some insertPosition),
      Range.make
        (insertPosition.transformedByInsertion insertPosition howMany true)
        (some (r.endPos.transformedByInsertion insertPosition howMany
          r.isCollapsed)) ]
  else
    let range := Range.createFromRange r
    let insertBeforeStart := if range.isCollapsed then true else !isSticky
    let insertBeforeEnd := if range.isCollapsed then true else isSticky
    [ { start := range.start.transformedByInsertion insertPosition howMany
          insertBeforeStart,
        endPos := range.endPos.transformedByInsertion insertPosition howMany
          insertBeforeEnd } ]

/-- `Range#_getTransformedByMove` (`range.js` lines 540-586).  The JS code
dereferences possibly-`null` results of `_getTransformedByDeletion` only at
call sites where the difference piece lies outside the deleted span, so the
`Option` is discharged with `getD` keeping the untransformed position. -/
def Range.getTransformedByMove (r : Range)
    (sourcePosition targetPosition : Pos) (howMany : Nat) : List Range :=
  if r.isCollapsed then
    [Range.make (r.start.transformedByMove sourcePosition targetPosition
      howMany true true) none]
  else
    let moveRange := Range.make sourcePosition
      (some (sourcePosition.getShiftedBy howMany))
    let differenceSet := r.getDifference moveRange
    let common := r.getIntersection moveRange
    let difference : Option Range :=
      match differenceSet with
      | [d] => some (Range.make
          ((d.start.transformedByDeletion sourcePosition howMany).getD d.start)
          (some ((d.endPos.transformedByDeletion sourcePosition
            howMany).getD d.endPos)))
      | [_, _] => some (Range.make r.start
          (some ((r.endPos.transformedByDeletion sourcePosition
            howMany).getD r.endPos)))
      | _ => none
    let insertPosition := (targetPosition.transformedByDeletion sourcePosition
      howMany).getD targetPosition
    let result :=
      match difference with
      | some d => d.getTransformedByInsertion insertPosition howMany
          common.isSome false
      | none => []
    match common with
    | some c => result ++
        [Range.make (c.start.getCombined moveRange.start insertPosition)
          (some (c.endPos.getCombined moveRange.start insertPosition))]
    | none => result

/-- The operation types a range can be transformed by
(`range.js` line 386); `remove` and `reinsert` carry the same move data. -/
inductive OperationK where
  | insert (position : Pos) (howMany : Nat)
  | move (sourcePosition targetPosition : Pos) (howMany : Nat)
  | remove (sourcePosition targetPosition : Pos) (howMany : Nat)
  | reinsert (sourcePosition targetPosition : Pos) (howMany : Nat)
  deriving DecidableEq, Repr

/-- A delta: an ordered list of operations (`delta.operations`). -/
abbrev Delta := List OperationK

/-- `Range#_getTransformedByDocumentChange` (`range.js` lines 459-465):
`insert` uses the insertion transformation with `spread` and `isSticky` both
`false`; `move`, `remove` and `reinsert` use the move transformation. -/
def Range.getTransformedByDocumentChange (r : Range) (op : OperationK) :
    List Range :=
  match op with
  | .insert position howMany =>
    r.getTransformedByInsertion position howMany false false
  | .move sourcePosition targetPosition howMany =>
    r.getTransformedByMove sourcePosition targetPosition howMany
  | .remove sourcePosition targetPosition howMany =>
    r.getTransformedByMove sourcePosition targetPosition howMany
  | .reinsert sourcePosition targetPosition howMany =>
    r.getTransformedByMove sourcePosition targetPosition howMany

/-- `Range#getTransformedByDelta` (`range.js` lines 382-406): each supported
operation is applied to every range produced so far, splicing the results in
place (a `flatMap` in operation order). -/
def Range.getTransformedByDelta (r : Range) (delta : Delta) : List Range :=
  delta.foldl
    (fun ranges op => ranges.flatMap (fun rng =>
      rng.getTransformedByDocumentChange op))
    [Range.createFromRange r]

/-- The removal condition of the coalescing loop in
`Range#getTransformedByDeltas` (`range.js` line 440). -/
def Range.dedupCond (range next : Range) : Bool :=
  range.containsRange next || next.containsRange range || range.isEqual next

/-- The inner `j` loop of the coalescing pass (`range.js` lines 437-443).
When `ranges.splice( j, 1 )` removes an element the loop increment `j++`
still runs, so the element that shifted into slot `j` is kept without being
checked — that skip is reproduced here. -/
def Range.dedupInner (range : Range) : List Range → List Range
  | [] => []
  | [next] => if Range.dedupCond range next then [] else [next]
  | next :: skipped :: rest₂ =>
    if Range.dedupCond range next then
      skipped :: Range.dedupInner range rest₂
    else
      next :: Range.dedupInner range (skipped :: rest₂)

theorem Range.dedupInner_length_le (range : Range) :
    (l : List Range) → (Range.dedupInner range l).length ≤ l.length
  | [] => Nat.le_refl _
  | [next] => by
    cases h : Range.dedupCond range next <;> simp [Range.dedupInner, h]
  | next :: skipped :: rest₂ => by
    cases h : Range.dedupCond range next with
    | true =>
      have ih := Range.dedupInner_length_le range rest₂
      simp [Range.dedupInner, h]
      omega
    | false =>
      have ih := Range.dedupInner_length_le range (skipped :: rest₂)
      simp [Range.dedupInner, h]
      simp at ih
      omega

/-- The outer `i` loop of the coalescing pass (`range.js` lines 434-444),
with an explicit step bound.  By `Range.dedupInner_length_le` the list never
grows, so a bound equal to the initial length is never exhausted. -/
def Range.dedupOuterFuel : Nat → List Range → List Range
  | _, [] => []
  | 0, l => l
  | fuel + 1, range :: rest =>
    range :: Range.dedupOuterFuel fuel (Range.dedupInner range rest)

/-- The outer `i` loop of the coalescing pass (`range.js` lines 434-444). -/
def Range.dedupOuter (l : List Range) : List Range :=
  Range.dedupOuterFuel l.length l

/-- `Range#getTransformedByDeltas` (`range.js` lines 418-447): transform by
each delta in order, then coalesce ranges contained in (or equal to) other
ranges. -/
def Range.getTransformedByDeltas (r : Range) (deltas : List Delta) :
    List Range :=
  Range.dedupOuter
    (deltas.foldl
      (fun ranges delta => ranges.flatMap (fun rng =>
        rng.getTransformedByDelta delta))
      [Range.createFromRange r])

/-- C6: evaluation of `getTransformedByDeltas` at the failing input.  The
range `[0]..[10]` transformed by four single-move deltas yields a final array
`[ [0]..[10], [6]..[7] ]` whose second range is wholly contained in the
first: the coalescing pass misses it because `ranges.splice( j, 1 )` is
followed by `j++`, skipping the element that shifted into slot `j`. -/
theorem getTransformedByDeltas_contained_range_bug :
    let r : Range := ⟨⟨0, [0]⟩, ⟨0, [10]⟩⟩
    let deltas : List Delta :=
      [ [ .move ⟨0, [2]⟩ ⟨0, [20]⟩ 1 ],
        [ .move ⟨0, [5]⟩ ⟨0, [30]⟩ 1 ],
        [ .move ⟨0, [29]⟩ ⟨0, [4]⟩ 1 ],
        [ .move ⟨0, [19]⟩ ⟨0, [6]⟩ 1 ] ]
    r.getTransformedByDeltas deltas =
      [ ⟨⟨0, [0]⟩, ⟨0, [10]⟩⟩, ⟨⟨0, [6]⟩, ⟨0, [7]⟩⟩ ] ∧
    Range.containsRange ⟨⟨0, [0]⟩, ⟨0, [10]⟩⟩ ⟨⟨0, [6]⟩, ⟨0, [7]⟩⟩ = true := by
  constructor
  · rfl
  · rfl

/-- `MoveOperation` data as used by `ReinsertOperation` (`range.js` lines
748-786): source position, target position, how many nodes, base version. -/
structure ReinsertOperation where
  sourcePosition : Pos
  howMany : Nat
  targetPosition : Pos
  baseVersion : Nat
  deriving DecidableEq, Repr

/-- Modelled from the spec: `removeoperation.js` is absent from the sources.
The spec describes `RemoveOperation` as a `MoveOperation` targeting the
graveyard root; its constructor arguments — as used by
`ReinsertOperation#getReversed` — are the position the nodes are removed
from, how many, and the base version. -/
structure RemoveOperation where
  sourcePosition : Pos
  howMany : Nat
  baseVersion : Nat
  deriving DecidableEq, Repr

/-- `ReinsertOperation#getReversed` (`range.js` lines 776-778):
`new RemoveOperation( this.targetPosition, this.howMany, this.baseVersion + 1 )`. -/
def ReinsertOperation.getReversed (op : ReinsertOperation) : RemoveOperation :=
  { sourcePosition := op.targetPosition
    howMany := op.howMany
    baseVersion := op.baseVersion + 1 }

/-- `document.Attribute`: a key/value pair (src/unnamed/part_001). -/
structure Attribute where
  key : String
  value : String
  deriving DecidableEq, Repr

/-- A node as seen by `ChangeOperation._execute`: its attribute list.
Modelled from the spec: the `Node` class itself is absent from the sources;
only `hasAttr`, `removeAttr` and `setAttr` are needed. -/
structure ChangeNode where
  attrs : List Attribute
  deriving DecidableEq, Repr

/-- `Node#hasAttr` with an `Attribute` argument: the node carries an
attribute with the same key and value. -/
def ChangeNode.hasAttr (n : ChangeNode) (attr : Attribute) : Bool :=
  n.attrs.contains attr

/-- `Node#hasAttr` with a key argument: the node carries an attribute with
that key. -/
def ChangeNode.hasAttrKey (n : ChangeNode) (key : String) : Bool :=
  n.attrs.any (fun a => a.key = key)

/-- `Node#removeAttr`: drop the attribute with the given key. -/
def ChangeNode.removeAttr (n : ChangeNode) (key : String) : ChangeNode :=
  ⟨n.attrs.filter (fun a => a.key ≠ key)⟩

/-- `Node#setAttr`: set the attribute, replacing any previous value for the
same key. -/
def ChangeNode.setAttr (n : ChangeNode) (attr : Attribute) : ChangeNode :=
  ⟨n.attrs.filter (fun a => a.key ≠ attr.key) ++ [attr]⟩

/-- The error kinds `ChangeOperation._execute` can throw
(src/unnamed/part_001 lines 69-123). -/
inductive ChangeErr where
  | differentKeys
  | noAttrToRemove
  | attrExists
  deriving DecidableEq, Repr

/-- `ChangeOperation` (src/unnamed/part_001): range, old attribute (null when
inserting), new attribute (null when removing), base version. -/
structure ChangeOperation where
  range : Range
  oldAttr : Option Attribute
  newAttr : Option Attribute
  baseVersion : Nat
  deriving DecidableEq, Repr

/-- `ChangeOperation#getReversed` (src/unnamed/part_001 lines 133-135):
`new ChangeOperation( this.range, this.newAttr, this.oldAttr,
this.baseVersion + 1 )`. -/
def ChangeOperation.getReversed (op : ChangeOperation) : ChangeOperation :=
  { range := op.range
    oldAttr := op.newAttr
    newAttr := op.oldAttr
    baseVersion := op.baseVersion + 1 }

/-- The first loop of `ChangeOperation._execute` ("Remove or change", lines
84-106): walk the range's nodes in order; a node without the old attribute
raises `operation-change-no-attr-to-remove`; when `newAttr` is null the old
attribute is removed from each node as it is visited.  The returned list
reflects the mutations performed up to the moment an error is raised. -/
def changeRemoveLoop (oldAttr : Attribute) (newAttrIsNull : Bool) :
    List ChangeNode → Option ChangeErr × List ChangeNode
  | [] => (none, [])
  | n :: rest =>
    if n.hasAttr oldAttr then
      let n₂ := if newAttrIsNull then n.removeAttr oldAttr.key else n
      let (e, rest₂) := changeRemoveLoop oldAttr newAttrIsNull rest
      (e, n₂ :: rest₂)
    else
      (some .noAttrToRemove, n :: rest)

/-- The second loop of `ChangeOperation._execute` ("Insert or change", lines
109-127): a node that already has the key raises
`operation-change-attr-exists` when inserting; otherwise the new attribute is
set on each node as it is visited. -/
def changeInsertLoop (oldAttrIsNull : Bool) (newAttr : Attribute) :
    List ChangeNode → Option ChangeErr × List ChangeNode
  | [] => (none, [])
  | n :: rest =>
    if oldAttrIsNull ∧ n.hasAttrKey newAttr.key then
      (some .attrExists, n :: rest)
    else
      let n₂ := n.setAttr newAttr
      let (e, rest₂) := changeInsertLoop oldAttrIsNull newAttr rest
      (e, n₂ :: rest₂)

/-- `ChangeOperation#_execute` (src/unnamed/part_001 lines 64-128), with the
range's node iteration abstracted to the list of nodes it yields.  The second
component is the node list at the moment the operation finishes or throws. -/
def ChangeOperation.execute (nodes : List ChangeNode)
    (oldAttr newAttr : Option Attribute) : Option ChangeErr × List ChangeNode :=
  match oldAttr, newAttr with
  | some o, some n =>
    if o.key ≠ n.key then
      (some .differentKeys, nodes)
    else
      let (e₁, nodes₁) := changeRemoveLoop o false nodes
      match e₁ with
      | some e => (some e, nodes₁)
      | none => changeInsertLoop false n nodes₁
  | some o, none => changeRemoveLoop o true nodes
  | none, some n => changeInsertLoop true n nodes
  | none, none => (none, nodes)

/-- C3: `getReversed()` returns the inverse operation bound to
`baseVersion + 1` — `ReinsertOperation#getReversed` is a `RemoveOperation`
built from the reinsert's target position and `howMany` with
`baseVersion + 1`, and `ChangeOperation#getReversed` is a `ChangeOperation`
over the same range with old and new attributes swapped and
`baseVersion + 1`. -/
theorem getReversed_inverse_shape (op : ReinsertOperation)
    (c : ChangeOperation) :
    op.getReversed.sourcePosition = op.targetPosition ∧
    op.getReversed.howMany = op.howMany ∧
    op.getReversed.baseVersion = op.baseVersion + 1 ∧
    c.getReversed.range = c.range ∧
    c.getReversed.oldAttr = c.newAttr ∧
    c.getReversed.newAttr = c.oldAttr ∧
    c.getReversed.baseVersion = c.baseVersion + 1 :=
  ⟨rfl, rfl, rfl, rfl, rfl, rfl, rfl⟩

/-- C2 counterexample: a remove-only `ChangeOperation` over two nodes, the
first carrying attribute `k=v` and the second not.  `_execute` removes the
attribute from the first node and only then throws
`operation-change-no-attr-to-remove` on the second, so at the moment the
error is thrown a node in the range has already been mutated. -/
theorem change_execute_mutates_before_throw_counterexample :
    let nodes : List ChangeNode := [⟨[⟨"k", "v"⟩]⟩, ⟨[]⟩]
    let result := ChangeOperation.execute nodes (some ⟨"k", "v"⟩) none
    result.1 = some .noAttrToRemove ∧ result.2 ≠ nodes ∧
    result.2 = [⟨[]⟩, ⟨[]⟩] := by
  decide

theorem changeRemoveLoop_keep_nodes (o : Attribute) :
    (nodes : List ChangeNode) →
    (changeRemoveLoop o false nodes).2 = nodes
  | [] => rfl
  | n :: rest => by
    by_cases h : n.hasAttr o = true
    · have ih := changeRemoveLoop_keep_nodes o rest
      simp [changeRemoveLoop, h, ih]
    · simp [changeRemoveLoop, h]

theorem changeInsertLoop_no_error (nA : Attribute) :
    (nodes : List ChangeNode) →
    (changeInsertLoop false nA nodes).1 = none
  | [] => rfl
  | n :: rest => by
    have ih := changeInsertLoop_no_error nA rest
    simp [changeInsertLoop]
    cases hrec : changeInsertLoop false nA rest with
    | mk e ns => rw [hrec] at ih; simpa using ih

/-- C2 (amended): `ChangeOperation._execute` surfaces precondition failures
synchronously, but aborts before any mutation only in the change case (old
and new attribute both set): there the validation loop does not mutate, and
the insert-phase error cannot fire.  For remove-only (and add-only)
operations, nodes visited before the failing node have already been mutated
when the error is thrown. -/
theorem change_execute_change_case_no_mutation_on_error
    (nodes : List ChangeNode) (o n : Attribute)
    (herr : (ChangeOperation.execute nodes (some o) (some n)).1 ≠ none) :
    (ChangeOperation.execute nodes (some o) (some n)).2 = nodes := by
  by_cases hkey : o.key ≠ n.key
  · simp [ChangeOperation.execute, hkey]
  · simp only [ChangeOperation.execute, hkey, if_false, reduceIte]
    simp only [ChangeOperation.execute, hkey, if_false, reduceIte] at herr
    cases hrem : (changeRemoveLoop o false nodes).1 with
    | some e =>
      cases hval : changeRemoveLoop o false nodes with
      | mk e₁ ns₁ =>
        have hkeep := changeRemoveLoop_keep_nodes o nodes
        rw [hval] at hrem hkeep
        simp at hrem hkeep
        subst hrem hkeep
        simp [hval]
    | none =>
      cases hval : changeRemoveLoop o false nodes with
      | mk e₁ ns₁ =>
        rw [hval] at hrem
        simp at hrem
        subst hrem
        have := changeInsertLoop_no_error n ns₁
        rw [hval] at herr
        simp [this] at herr

/-- Witness for C2's amended theorem: a change operation `k : v → w` on one
node lacking the old attribute throws and leaves the node list unchanged. -/
theorem change_execute_change_case_no_mutation_on_error_witness :
    (ChangeOperation.execute [⟨[]⟩] (some ⟨"k", "v"⟩) (some ⟨"k", "w"⟩)).1
      ≠ none ∧
    (ChangeOperation.execute [⟨[]⟩] (some ⟨"k", "v"⟩) (some ⟨"k", "w"⟩)).2
      = [⟨[]⟩] :=
  ⟨by decide,
    change_execute_change_case_no_mutation_on_error [⟨[]⟩] ⟨"k", "v"⟩
      ⟨"k", "w"⟩ (by decide)⟩

/-- A document tree of elements; only the child structure matters for
position touching.  Modelled from the spec: the node classes are absent from
the sources. -/
inductive MTree where
  | node (children : List MTree)

mutual

/-- All node extents of a tree below the given path: for the child at offset
`o` of the node at path `pref`, the pair of its before-position path
`pref ++ [o]` and after-position path `pref ++ [o+1]`, plus the extents of
its own descendants. -/
def MTree.spansFrom (pref : List Nat) : MTree → List (List Nat × List Nat)
  | .node children => MTree.spansChildren pref 0 children

/-- Helper for `MTree.spansFrom`: extents of the children starting at
offset `o`. -/
def MTree.spansChildren (pref : List Nat) (o : Nat) :
    List MTree → List (List Nat × List Nat)
  | [] => []
  | c :: rest =>
    (pref ++ [o], pref ++ [o + 1]) :: MTree.spansFrom (pref ++ [o]) c
      ++ MTree.spansChildren pref (o + 1) rest

end

/-- Modelled from the spec: `Position#isTouching` from the absent
`position.js` — two positions are touching iff they are the same or no node
lies strictly between them, i.e. no node of the document falls wholly inside
the closed interval spanned by the two paths. -/
def Pos.isTouching (doc : MTree) (p q : Pos) : Bool :=
  if p.root ≠ q.root then
    false
  else if p.path = q.path then
    true
  else
    let lr := if pathLt p.path q.path then (p.path, q.path) else (q.path, p.path)
    (doc.spansFrom []).all
      (fun s => !(pathLe lr.1 s.1 && pathLe s.2 lr.2))

/-- Errors surfaced by `Range.createFromRanges`: a `CKEditorError` with its
message, or the `TypeError` JavaScript raises when the buggy upward scan
walks past the end of the array and dereferences `undefined`. -/
inductive JsErr where
  | ck (msg : String)
  | typeError
  deriving DecidableEq, Repr

/-- The `range-create-from-ranges-empty-array` error. -/
def emptyArrayErr : JsErr :=
  .ck "range-create-from-ranges-empty-array: At least one range has to be passed."

/-- Insert a range into a list sorted by start position, placing it before
the first element whose start is after its own — the net effect of the
in-place `ranges.sort( ( a, b ) => a.start.isAfter( b.start ) )` call on a
small array (a stable insertion sort whose comparator coerces the boolean to
`1` or `0`). -/
def sortInsertByStart (x : Range) : List Range → List Range
  | [] => [x]
  | y :: ys =>
    if y.start.isAfter x.start then x :: y :: ys else y :: sortInsertByStart x ys

/-- The sorted array produced by step 2 of `createFromRanges`
(`range.js` line 684). -/
def jsSortByStart (l : List Range) : List Range :=
  l.foldl (fun acc x => sortInsertByStart x acc) []

/-- `ranges.indexOf( ref )` after the in-place sort: the first index holding
the reference range's value. -/
def indexOfRange (l : List Range) (ref : Range) : Nat :=
  (l.findIdx (fun r => r = ref))

/-- Step 5a of `createFromRanges` (`range.js` lines 696-703): the upward scan
gluing ranges that touch `result.start`.  The JS loop header is
`for ( let i = refIndex - 1; i >= 0; i++ )` — the index *increments* — so
absent a `break` the scan runs past the end of the array and JavaScript
throws a `TypeError` on `ranges[ i ].end`; the scan argument here is
`ranges.drop( refIndex - 1 )`. -/
def glueUpward (doc : MTree) : List Range → Range → Except JsErr Range
  | [], _ => .error .typeError
  | r :: rest, result =>
    if r.endPos.isTouching doc result.start then
      glueUpward doc rest { result with start := r.start.createFromPosition }
    else
      .ok result

/-- Step 5b of `createFromRanges` (`range.js` lines 707-714): the downward
scan gluing ranges whose start touches `result.end`, starting at
`refIndex + 1` and stopping at the first non-touching range or the end of
the array. -/
def glueDownward (doc : MTree) : List Range → Range → Range
  | [], result => result
  | r :: rest, result =>
    if r.start.isTouching doc result.endPos then
      glueDownward doc rest { result with endPos := r.endPos.createFromPosition }
    else
      result

/-- `Range.createFromRanges` (`range.js` lines 666-717): throws on an empty
array, copies a singleton, and otherwise sorts the ranges, re-finds the
reference range (the original first element) and glues touching neighbours
onto a copy of it. -/
def Range.createFromRanges (doc : MTree) (ranges : List Range) :
    Except JsErr Range :=
  match ranges with
  | [] => .error emptyArrayErr
  | [r] => .ok (Range.createFromRange r)
  | r₀ :: r₁ :: rest =>
    let sorted := jsSortByStart (r₀ :: r₁ :: rest)
    let refIndex := indexOfRange sorted r₀
    let result := Range.make r₀.start (some r₀.endPos)
    match
      (if refIndex = 0 then .ok result
       else glueUpward doc (sorted.drop (refIndex - 1)) result) with
    | .error e => .error e
    | .ok result₁ =>
      .ok (glueDownward doc (sorted.drop (refIndex + 1)) result₁)

theorem glueUpward_no_ck_error (doc : MTree) (msg : String) :
    (l : List Range) → (result : Range) →
    glueUpward doc l result ≠ .error (.ck msg)
  | [], _ => by simp [glueUpward]
  | r :: rest, result => by
    by_cases h : r.endPos.isTouching doc result.start = true
    · have ih := glueUpward_no_ck_error doc msg rest
        { result with start := r.start.createFromPosition }
      simpa [glueUpward, h] using ih
    · simp [glueUpward, h]

/-- C5: `Range.createFromRanges` fails with the
`range-create-from-ranges-empty-array` error exactly when the given array is
empty, and on a one-element array it returns a fresh range equal to that
range without throwing. -/
theorem createFromRanges_empty_iff_and_singleton (doc : MTree)
    (l : List Range) (r : Range) :
    (Range.createFromRanges doc l = .error emptyArrayErr ↔ l = []) ∧
    Range.createFromRanges doc [r] = .ok r := by
  refine ⟨⟨fun h => ?_, fun h => by subst h; rfl⟩, rfl⟩
  match l with
  | [] => rfl
  | [_] => simp [Range.createFromRanges] at h
  | r₀ :: r₁ :: rest =>
    simp only [Range.createFromRanges] at h
    set sorted := jsSortByStart (r₀ :: r₁ :: rest) with hs
    set refIndex := indexOfRange sorted r₀ with hr
    by_cases h0 : refIndex = 0
    · simp [h0] at h
    · simp only [h0, if_false, reduceIte] at h
      cases hg : glueUpward doc (sorted.drop (refIndex - 1))
          (Range.make r₀.start (some r₀.endPos)) with
      | error e =>
        rw [hg] at h
        simp at h
        subst h
        exact absurd hg (glueUpward_no_ck_error doc _ _ _)
      | ok res => rw [hg] at h; simp at h

/-- The flat six-child document of the C4 scenario. -/
def scenarioDoc : MTree :=
  .node [.node [], .node [], .node [], .node [], .node [], .node []]

/-- Scenario range `A = [0]..[1]` (first in document order). -/
def scenarioA : Range := ⟨⟨0, [0]⟩, ⟨0, [1]⟩⟩

/-- Scenario range `B = [1]..[3]` (second in document order, passed first). -/
def scenarioB : Range := ⟨⟨0, [1]⟩, ⟨0, [3]⟩⟩

/-- Scenario range `C = [4]..[5]` (third in document order, touching
nothing). -/
def scenarioC : Range := ⟨⟨0, [4]⟩, ⟨0, [5]⟩⟩

/-- C4: the spec's `createFromRanges` scenario.  With ranges
`A = [0]..[1]`, `B = [1]..[3]`, `C = [4]..[5]` in a flat six-child root —
mutually disjoint, with only `A` and `B` touching — passing `B` first (the
reference range) yields the single merged range `[0]..[3]` spanning the
touching pair, and `C` is excluded.  The premise conjuncts record that the
input really fits the scenario. -/
theorem createFromRanges_reference_merge_scenario :
    Pos.isTouching scenarioDoc scenarioA.endPos scenarioB.start = true ∧
    Pos.isTouching scenarioDoc scenarioB.endPos scenarioC.start = false ∧
    Pos.isTouching scenarioDoc scenarioA.endPos scenarioC.start = false ∧
    scenarioA.isIntersecting scenarioB = false ∧
    scenarioB.isIntersecting scenarioC = false ∧
    scenarioA.isIntersecting scenarioC = false ∧
    Range.createFromRanges scenarioDoc [scenarioB, scenarioA, scenarioC] =
      .ok ⟨⟨0, [0]⟩, ⟨0, [3]⟩⟩ :=
  ⟨by decide, by decide, by decide, by decide, by decide, by decide, rfl⟩

/-- Attribute priorities used by `LiveSelection` (src/unnamed/part_000):
`normal` for direct API changes, `low` for automatic re-derivation. -/
inductive Prio where
  | normal
  | low
  deriving DecidableEq, Repr

/-- Lookup in an insertion-ordered key/value list (a JS `Map.get`). -/
def alookup {β : Type} : List (String × β) → String → Option β
  | [], _ => none
  | (k₁, v₁) :: rest, k => if k₁ = k then some v₁ else alookup rest k

/-- Update/insert in an insertion-ordered key/value list (a JS `Map.set`:
an existing key keeps its position, a new key is appended). -/
def aset {β : Type} : List (String × β) → String → β → List (String × β)
  | [], k, v => [(k, v)]
  | (k₁, v₁) :: rest, k, v =>
    if k₁ = k then (k₁, v) :: rest else (k₁, v₁) :: aset rest k v

/-- Deletion from an insertion-ordered key/value list (a JS `Map.delete`). -/
def adelete {β : Type} : List (String × β) → String → List (String × β)
  | [], _ => []
  | (k₁, v₁) :: rest, k =>
    if k₁ = k then adelete rest k else (k₁, v₁) :: adelete rest k

/-- `LiveSelection` state (src/unnamed/part_000): the `_ranges` list
inherited from `Selection`, the `_attrs` attribute map, and the
`_attributePriority` map. -/
structure LiveSelection where
  ranges : List Range
  attrs : List (String × String)
  attributePriority : List (String × Prio)
  deriving DecidableEq, Repr

/-- Modelled from the spec: the document as `LiveSelection` sees it
(`document.js` is absent from the sources) — the graveyard root, the default
range `_getDefaultRange()` resolves to, and the attributes
`_getSurroundingAttributes()` derives from the content around the
selection. -/
structure DocModel where
  graveyardRoot : Nat
  defaultRange : Range
  surroundingAttrs : List (String × String)
  deriving DecidableEq, Repr

/-- `Range#root` (`range.js` lines 97-99): the root of the start position. -/
def Range.root (r : Range) : Nat :=
  r.start.root

/-- `LiveSelection#rangeCount` (src/unnamed/part_000 lines 111-113):
`this._ranges.length ? this._ranges.length : 1`. -/
def LiveSelection.rangeCount (s : LiveSelection) : Nat :=
  if s.ranges.length = 0 then 1 else s.ranges.length

/-- `LiveSelection#getRanges` (src/unnamed/part_000 lines 129-135): the
explicit ranges, or the document's default range when none are set. -/
def LiveSelection.getRanges (s : LiveSelection) (doc : DocModel) : List Range :=
  if s.ranges.length = 0 then [doc.defaultRange] else s.ranges

/-- `LiveSelection#_setAttribute` (src/unnamed/part_000 lines 402-423). -/
def LiveSelection._setAttribute (s : LiveSelection) (key : String)
    (value : String) (directChange : Bool) : Bool × LiveSelection :=
  let priority := if directChange then Prio.normal else Prio.low
  if priority = Prio.low ∧ alookup s.attributePriority key = some Prio.normal
  then
    (false, s)
  else
    let oldValue := alookup s.attrs key
    if oldValue = some value then
      (false, s)
    else
      (true,
        { s with
          attrs := aset s.attrs key value
          attributePriority := aset s.attributePriority key priority })

/-- `LiveSelection#_removeAttribute` (src/unnamed/part_000 lines 436-455). -/
def LiveSelection._removeAttribute (s : LiveSelection) (key : String)
    (directChange : Bool) : Bool × LiveSelection :=
  let priority := if directChange then Prio.normal else Prio.low
  if priority = Prio.low ∧ alookup s.attributePriority key = some Prio.normal
  then
    (false, s)
  else if alookup s.attrs key = none then
    (false, s)
  else
    (true,
      { s with
        attrs := adelete s.attrs key
        attributePriority := aset s.attributePriority key priority })

/-- The first loop of `_setAttributesTo` (src/unnamed/part_000 lines
470-480): walk the selection's current attribute entries and remove those not
about to be re-set with the same value; removal may be blocked by
priorities. -/
def LiveSelection.removePhase (attrs : List (String × String))
    (directChange : Bool) :
    List (String × String) → LiveSelection → List String × LiveSelection
  | [], s => ([], s)
  | (oldKey, oldValue) :: rest, s =>
    if alookup attrs oldKey = some oldValue then
      LiveSelection.removePhase attrs directChange rest s
    else
      let step := s._removeAttribute oldKey directChange
      let next := LiveSelection.removePhase attrs directChange rest step.2
      (if step.1 then oldKey :: next.1 else next.1, next.2)

/-- The second loop of `_setAttributesTo` (src/unnamed/part_000 lines
482-489): set every given attribute; setting may be blocked by priorities or
by an identical existing value. -/
def LiveSelection.insertPhase (directChange : Bool) :
    List (String × String) → LiveSelection → List String × LiveSelection
  | [], s => ([], s)
  | (key, value) :: rest, s =>
    let step := s._setAttribute key value directChange
    let next := LiveSelection.insertPhase directChange rest step.2
    (if step.1 then key :: next.1 else next.1, next.2)

/-- `LiveSelection#_setAttributesTo` (src/unnamed/part_000 lines 467-492). -/
def LiveSelection._setAttributesTo (s : LiveSelection)
    (attrs : List (String × String)) (directChange : Bool) :
    List String × LiveSelection :=
  let removed := LiveSelection.removePhase attrs directChange s.attrs s
  let added := LiveSelection.insertPhase directChange attrs removed.2
  (removed.1 ++ added.1, added.2)

/-- `LiveSelection#_updateAttributes` (src/unnamed/part_000 lines 336-378):
with `clearAll` both maps are reset; otherwise only `low`-priority entries
are dropped; then the surrounding attributes are re-applied with `low`
priority (`directChange = false`).  Event bookkeeping is not modelled. -/
def LiveSelection._updateAttributes (s : LiveSelection) (doc : DocModel)
    (clearAll : Bool) : LiveSelection :=
  let newAttributes := doc.surroundingAttrs
  let s₁ :=
    if clearAll then
      { s with attrs := [], attributePriority := [] }
    else
      let lowKeys := (s.attributePriority.filter
        (fun e => e.2 = Prio.low)).map (fun e => e.1)
      { s with
        attrs := s.attrs.filter (fun e => ¬ lowKeys.contains e.1)
        attributePriority := s.attributePriority.filter
          (fun e => ¬ e.2 = Prio.low) }
  (s₁._setAttributesTo newAttributes false).2

/-- `LiveSelection#refreshAttributes` (src/unnamed/part_000 lines 236-238). -/
def LiveSelection.refreshAttributes (s : LiveSelection) (doc : DocModel) :
    LiveSelection :=
  s._updateAttributes doc true

/-- An argument passed to `Selection#addRange`/`_pushRange`: either a model
`Range` or some other JS object (the `instanceof Range` check). -/
inductive JsInput where
  | range (r : Range)
  | notRange
  deriving DecidableEq, Repr

/-- The `model-selection-added-not-range` error. -/
inductive SelErr where
  | addedNotRange
  deriving DecidableEq, Repr

/-- The warning logged for a graveyard range
(src/unnamed/part_000 line 309). -/
def graveyardWarning : String :=
  "model-selection-range-in-graveyard: Trying to add a Range that is in the graveyard root. Range rejected."

/-- `LiveSelection#_prepareRange` (src/unnamed/part_000 lines 293-327): a
non-`Range` argument throws `model-selection-added-not-range`; a range in the
graveyard root logs a warning and yields nothing; otherwise the range is
converted to a live range (modelled as a value copy; `_checkRange` and the
change-event subscription have no state effect here). -/
def LiveSelection._prepareRange (doc : DocModel) (inp : JsInput) :
    Except SelErr (Option Range × List String) :=
  match inp with
  | .notRange => .error .addedNotRange
  | .range r =>
    if r.root = doc.graveyardRoot then
      .ok (none, [graveyardWarning])
    else
      .ok (some (Range.createFromRange r), [])

/-- `LiveSelection#_pushRange` (src/unnamed/part_000 lines 276-283): the
prepared live range, when one is produced, is appended to `_ranges`. -/
def LiveSelection._pushRange (s : LiveSelection) (doc : DocModel)
    (inp : JsInput) : Except SelErr (LiveSelection × List String) :=
  match LiveSelection._prepareRange doc inp with
  | .error e => .error e
  | .ok (some liveRange, warns) =>
    .ok ({ s with ranges := s.ranges ++ [liveRange] }, warns)
  | .ok (none, warns) => .ok (s, warns)

/-- `LiveSelection#addRange` (src/unnamed/part_000 lines 154-157):
`super.addRange` pushes the range (modelled from the spec: `selection.js` is
absent; its `addRange` validates and pushes), then attributes are
refreshed. -/
def LiveSelection.addRange (s : LiveSelection) (doc : DocModel)
    (inp : JsInput) : Except SelErr (LiveSelection × List String) :=
  match s._pushRange doc inp with
  | .error e => .error e
  | .ok (s₂, warns) => .ok (s₂.refreshAttributes doc, warns)

/-- `LiveSelection#removeAllRanges` (src/unnamed/part_000 lines 162-165):
`super.removeAllRanges` pops every range (modelled from the spec:
`selection.js` is absent), then attributes are refreshed. -/
def LiveSelection.removeAllRanges (s : LiveSelection) (doc : DocModel) :
    LiveSelection :=
  ({ s with ranges := [] }).refreshAttributes doc

theorem _setAttribute_ranges (s : LiveSelection) (key value : String)
    (dc : Bool) : (s._setAttribute key value dc).2.ranges = s.ranges := by
  simp only [LiveSelection._setAttribute]
  repeat' split
  all_goals rfl

theorem _removeAttribute_ranges (s : LiveSelection) (key : String)
    (dc : Bool) : (s._removeAttribute key dc).2.ranges = s.ranges := by
  simp only [LiveSelection._removeAttribute]
  repeat' split
  all_goals rfl

theorem removePhase_ranges (attrs : List (String × String)) (dc : Bool) :
    (entries : List (String × String)) → (s : LiveSelection) →
    (LiveSelection.removePhase attrs dc entries s).2.ranges = s.ranges
  | [], _ => rfl
  | (oldKey, oldValue) :: rest, s => by
    by_cases h : alookup attrs oldKey = some oldValue
    · have ih := removePhase_ranges attrs dc rest s
      simp [LiveSelection.removePhase, h, ih]
    · have ih := removePhase_ranges attrs dc rest
        (s._removeAttribute oldKey dc).2
      simp [LiveSelection.removePhase, h, ih, _removeAttribute_ranges]

theorem insertPhase_ranges (dc : Bool) :
    (attrs : List (String × String)) → (s : LiveSelection) →
    (LiveSelection.insertPhase dc attrs s).2.ranges = s.ranges
  | [], _ => rfl
  | (key, value) :: rest, s => by
    have ih := insertPhase_ranges dc rest (s._setAttribute key value dc).2
    simp [LiveSelection.insertPhase, ih, _setAttribute_ranges]

theorem _updateAttributes_ranges (s : LiveSelection) (doc : DocModel)
    (clearAll : Bool) :
    (s._updateAttributes doc clearAll).ranges = s.ranges := by
  cases clearAll <;>
    simp [LiveSelection._updateAttributes, LiveSelection._setAttributesTo,
      insertPhase_ranges, removePhase_ranges]

/-- C7: a `LiveSelection` with no explicit ranges reports `rangeCount = 1`
and `getRanges` yields exactly the document's default range; and after
adding any range and then removing all ranges the selection is back in that
same default-range state. -/
theorem liveselection_default_range_state (doc : DocModel)
    (s : LiveSelection) (inp : JsInput) (h : s.ranges = []) :
    s.rangeCount = 1 ∧ s.getRanges doc = [doc.defaultRange] ∧
    ∀ s₂ warns, s.addRange doc inp = .ok (s₂, warns) →
      (s₂.removeAllRanges doc).rangeCount = 1 ∧
      (s₂.removeAllRanges doc).getRanges doc = [doc.defaultRange] := by
  refine ⟨by simp [LiveSelection.rangeCount, h],
    by simp [LiveSelection.getRanges, h], fun s₂ warns _ => ?_⟩
  have hranges : (s₂.removeAllRanges doc).ranges = [] := by
    simp [LiveSelection.removeAllRanges, LiveSelection.refreshAttributes,
      _updateAttributes_ranges]
  exact ⟨by simp [LiveSelection.rangeCount, hranges],
    by simp [LiveSelection.getRanges, hranges]⟩

/-- Witness for C7 at a concrete empty selection, document and range. -/
theorem liveselection_default_range_state_witness :
    let doc : DocModel := ⟨1, ⟨⟨0, [0]⟩, ⟨0, [0]⟩⟩, []⟩
    let s : LiveSelection := ⟨[], [], []⟩
    let inp : JsInput := .range ⟨⟨0, [0]⟩, ⟨0, [2]⟩⟩
    s.ranges = [] ∧
    (s.rangeCount = 1 ∧ s.getRanges doc = [doc.defaultRange] ∧
      ∀ s₂ warns, s.addRange doc inp = .ok (s₂, warns) →
        (s₂.removeAllRanges doc).rangeCount = 1 ∧
        (s₂.removeAllRanges doc).getRanges doc = [doc.defaultRange]) :=
  ⟨rfl, liveselection_default_range_state _ _ _ rfl⟩

/-- Every priority recorded in the map is `low`. -/
def prioAllLow (l : List (String × Prio)) : Prop :=
  ∀ k p, alookup l k = some p → p = Prio.low

theorem alookup_aset {β : Type} (k k' : String) (v : β) :
    (l : List (String × β)) →
    alookup (aset l k v) k' = if k = k' then some v else alookup l k'
  | [] => by
    by_cases h : k = k' <;> simp [aset, alookup, h]
  | (k₁, v₁) :: rest => by
    by_cases h1 : k₁ = k
    · subst h1
      by_cases h2 : k₁ = k' <;> simp [aset, alookup, h2]
    · have ih := alookup_aset k k' v rest
      by_cases h2 : k₁ = k'
      · subst h2
        simp [aset, alookup, h1, Ne.symm h1]
      · simp [aset, alookup, h1, h2, ih]

theorem prioAllLow_aset_low (l : List (String × Prio)) (k : String)
    (h : prioAllLow l) : prioAllLow (aset l k Prio.low) := by
  intro k₁ p hp
  rw [alookup_aset] at hp
  by_cases hk : k = k₁
  · rw [if_pos hk] at hp
    exact (Option.some.inj hp).symm
  · rw [if_neg hk] at hp
    exact h k₁ p hp

theorem _setAttribute_false_prio (s : LiveSelection) (key value : String) :
    (s._setAttribute key value false).2.attributePriority
        = s.attributePriority ∨
    (s._setAttribute key value false).2.attributePriority
        = aset s.attributePriority key Prio.low := by
  simp only [LiveSelection._setAttribute]
  repeat' split
  all_goals simp_all

theorem _removeAttribute_false_prio (s : LiveSelection) (key : String) :
    (s._removeAttribute key false).2.attributePriority
        = s.attributePriority ∨
    (s._removeAttribute key false).2.attributePriority
        = aset s.attributePriority key Prio.low := by
  simp only [LiveSelection._removeAttribute]
  repeat' split
  all_goals simp_all

theorem _setAttribute_low_prioAllLow (s : LiveSelection) (key value : String)
    (hs : prioAllLow s.attributePriority) :
    prioAllLow (s._setAttribute key value false).2.attributePriority := by
  rcases _setAttribute_false_prio s key value with h | h
  · rw [h]; exact hs
  · rw [h]; exact prioAllLow_aset_low _ _ hs

theorem _removeAttribute_low_prioAllLow (s : LiveSelection) (key : String)
    (hs : prioAllLow s.attributePriority) :
    prioAllLow (s._removeAttribute key false).2.attributePriority := by
  rcases _removeAttribute_false_prio s key with h | h
  · rw [h]; exact hs
  · rw [h]; exact prioAllLow_aset_low _ _ hs

theorem removePhase_low_prioAllLow (attrs : List (String × String)) :
    (entries : List (String × String)) → (s : LiveSelection) →
    prioAllLow s.attributePriority →
    prioAllLow (LiveSelection.removePhase attrs false entries s).2.attributePriority
  | [], _, hs => hs
  | (oldKey, oldValue) :: rest, s, hs => by
    by_cases h : alookup attrs oldKey = some oldValue
    · have ih := removePhase_low_prioAllLow attrs rest s hs
      simpa [LiveSelection.removePhase, h] using ih
    · have hstep := _removeAttribute_low_prioAllLow s oldKey hs
      have ih := removePhase_low_prioAllLow attrs rest
        (s._removeAttribute oldKey false).2 hstep
      simpa [LiveSelection.removePhase, h] using ih

theorem insertPhase_low_prioAllLow :
    (attrs : List (String × String)) → (s : LiveSelection) →
    prioAllLow s.attributePriority →
    prioAllLow (LiveSelection.insertPhase false attrs s).2.attributePriority
  | [], _, hs => hs
  | (key, value) :: rest, s, hs => by
    have hstep := _setAttribute_low_prioAllLow s key value hs
    have ih := insertPhase_low_prioAllLow rest
      (s._setAttribute key value false).2 hstep
    simpa [LiveSelection.insertPhase] using ih

theorem _updateAttributes_clearAll_prioAllLow (s : LiveSelection)
    (doc : DocModel) :
    prioAllLow (s._updateAttributes doc true).attributePriority := by
  simp only [LiveSelection._updateAttributes, LiveSelection._setAttributesTo]
  refine insertPhase_low_prioAllLow _ _ ?_
  refine removePhase_low_prioAllLow _ _ _ ?_
  intro k p hp
  simp [alookup] at hp

/-- C8: while an attribute key's recorded priority is `normal`, a
`low`-priority write (`_setAttribute`/`_removeAttribute` with
`directChange = false`) returns `false` and leaves the whole selection
state — value and priority included — unchanged; and a full refresh
(`_updateAttributes` with `clearAll = true`) resets the priority map so that
no key is left at `normal` priority afterwards. -/
theorem low_priority_write_never_overwrites_normal (s : LiveSelection)
    (key value : String) (doc : DocModel)
    (h : alookup s.attributePriority key = some Prio.normal) :
    s._setAttribute key value false = (false, s) ∧
    s._removeAttribute key false = (false, s) ∧
    ∀ k, alookup (s._updateAttributes doc true).attributePriority k
      ≠ some Prio.normal := by
  refine ⟨by simp [LiveSelection._setAttribute, h],
    by simp [LiveSelection._removeAttribute, h], fun k hk => ?_⟩
  exact absurd (_updateAttributes_clearAll_prioAllLow s doc k Prio.normal hk)
    (by simp)

/-- Witness for C8 at a concrete selection holding `k` at `normal`
priority. -/
theorem low_priority_write_never_overwrites_normal_witness :
    let s : LiveSelection := ⟨[], [("k", "v")], [("k", Prio.normal)]⟩
    let doc : DocModel := ⟨1, ⟨⟨0, [0]⟩, ⟨0, [0]⟩⟩, [("k", "w")]⟩
    alookup s.attributePriority "k" = some Prio.normal ∧
    (s._setAttribute "k" "w" false = (false, s) ∧
      s._removeAttribute "k" false = (false, s) ∧
      ∀ k, alookup (s._updateAttributes doc true).attributePriority k
        ≠ some Prio.normal) :=
  ⟨by decide, low_priority_write_never_overwrites_normal _ "k" "w" _
    (by decide)⟩

/-- C9: pushing a range whose root is the document's graveyard root is
recovered locally — the warning is surfaced, the range list is unchanged and
no error is thrown — whereas pushing an object that is not a `Range` throws
`model-selection-added-not-range`. -/
theorem graveyard_range_rejected_not_range_throws (s : LiveSelection)
    (doc : DocModel) (r : Range) (h : r.root = doc.graveyardRoot) :
    s._pushRange doc (.range r) = .ok (s, [graveyardWarning]) ∧
    s._pushRange doc .notRange = .error .addedNotRange := by
  constructor
  · simp [LiveSelection._pushRange, LiveSelection._prepareRange, h]
  · rfl

/-- Witness for C9 at a concrete selection and graveyard range. -/
theorem graveyard_range_rejected_not_range_throws_witness :
    let doc : DocModel := ⟨1, ⟨⟨0, [0]⟩, ⟨0, [0]⟩⟩, []⟩
    let s : LiveSelection := ⟨[⟨⟨0, [0]⟩, ⟨0, [2]⟩⟩], [], []⟩
    let r : Range := ⟨⟨1, [0]⟩, ⟨1, [1]⟩⟩
    r.root = doc.graveyardRoot ∧
    (s._pushRange doc (.range r) = .ok (s, [graveyardWarning]) ∧
      s._pushRange doc .notRange = .error .addedNotRange) :=
  ⟨rfl, graveyard_range_rejected_not_range_throws _ _ _ rfl⟩

/-- The value carried by a JS `Position` object: root and path. -/
structure PosVal where
  root : Nat
  path : List Nat
  deriving DecidableEq, Repr

/-- A heap of `Position` objects, distinguishing object identity (the `Nat`
reference) from value: used to state that the `Range` constructor stores
fresh copies of its boundary arguments. -/
structure PosHeap where
  mem : Nat → PosVal
  next : Nat

/-- Read the position object behind a reference. -/
def PosHeap.read (h : PosHeap) (ref : Nat) : PosVal :=
  h.mem ref

/-- Allocate a fresh position object holding the given value. -/
def PosHeap.alloc (h : PosHeap) (v : PosVal) : PosHeap × Nat :=
  ({ mem := fun i => if i = h.next then v else h.mem i, next := h.next + 1 },
    h.next)

/-- Mutate the position object behind a reference in place (the JS
`position.path = ...` / `position.offset = ...` setters). -/
def PosHeap.write (h : PosHeap) (ref : Nat) (v : PosVal) : PosHeap :=
  { h with mem := fun i => if i = ref then v else h.mem i }

/-- `Position.createFromPosition` at the heap level: allocate a NEW position
object carrying the same value as the argument. -/
def PosHeap.createFromPosition (h : PosHeap) (ref : Nat) : PosHeap × Nat :=
  h.alloc (h.read ref)

/-- The `Range` constructor at the heap level (`range.js` lines 26-42):
`this.start = Position.createFromPosition( start )` and
`this.end = end ? Position.createFromPosition( end )
: Position.createFromPosition( start )`.  Returns the updated heap and the
references stored in the new range's `start` and `end` fields. -/
def rangeConstructorHeap (h : PosHeap) (start : Nat) (endRef : Option Nat) :
    PosHeap × Nat × Nat :=
  let s := h.createFromPosition start
  let e := match endRef with
    | some er => s.1.createFromPosition er
    | none => s.1.createFromPosition start
  (e.1, s.2, e.2)

/-- C10: `new Range( p )` with the end argument omitted yields a collapsed
range whose start and end both equal `p` — at the value level
`Range.make p none` has `start = end = p` and `isCollapsed` — and at the
heap level the constructor allocates fresh copies of the boundary positions,
so writing any value through the original reference afterwards leaves the
stored boundary values unchanged. -/
theorem range_constructor_collapsed_and_fresh (p : Pos) (h : PosHeap)
    (ref : Nat) (v : PosVal) (href : ref < h.next) :
    (Range.make p none).start = p ∧ (Range.make p none).endPos = p ∧
    (Range.make p none).isCollapsed = true ∧
    (let res := rangeConstructorHeap h ref none
     res.1.read res.2.1 = h.read ref ∧ res.1.read res.2.2 = h.read ref ∧
     (res.1.write ref v).read res.2.1 = h.read ref ∧
     (res.1.write ref v).read res.2.2 = h.read ref) := by
  refine ⟨rfl, rfl, by simp [Range.make, Range.isCollapsed, Pos.isEqual], ?_⟩
  have h1 : ref ≠ h.next := Nat.ne_of_lt href
  have h2 : ref ≠ h.next + 1 := Nat.ne_of_lt (Nat.lt_succ_of_lt href)
  have h3 : (h.next : Nat) ≠ h.next + 1 := Nat.ne_of_lt (Nat.lt_succ_self _)
  simp [rangeConstructorHeap, PosHeap.createFromPosition, PosHeap.alloc,
    PosHeap.read, PosHeap.write, h3, Ne.symm h1, Ne.symm h2]

/-- Witness for C10 at a concrete position and one-object heap. -/
theorem range_constructor_collapsed_and_fresh_witness :
    let p : Pos := ⟨0, [3]⟩
    let h : PosHeap := ⟨fun _ => ⟨0, [3]⟩, 1⟩
    let v : PosVal := ⟨7, [9]⟩
    (0 < h.next) ∧
    ((Range.make p none).start = p ∧ (Range.make p none).endPos = p ∧
      (Range.make p none).isCollapsed = true ∧
      (let res := rangeConstructorHeap h 0 none
       res.1.read res.2.1 = h.read 0 ∧ res.1.read res.2.2 = h.read 0 ∧
       (res.1.write 0 v).read res.2.1 = h.read 0 ∧
       (res.1.write 0 v).read res.2.2 = h.read 0)) :=
  ⟨Nat.zero_lt_one,
    range_constructor_collapsed_and_fresh ⟨0, [3]⟩ ⟨fun _ => ⟨0, [3]⟩, 1⟩ 0
      ⟨7, [9]⟩ Nat.zero_lt_one⟩
